import Mathlib

/-!
Verification of the media-upload service core (Go sources: `main` package
with the gRPC/HTTP handlers, and package `server` with the worker pool).

The Go code is shallowly embedded: the buffered channel `JobQueue chan Job`
becomes an explicit queue state, channel operations follow the Go memory
model for buffered channels (a send in a `select` with a `default` branch
succeeds iff the buffer has room, the `default` fires iff the channel is
neither closed nor has room, and a send on a closed channel is a runtime
panic, modelled as `none`). The per-request handlers become functions over
explicit event traces and environments.
-/

namespace MediaUpload

/-- `server.Job`: value object carrying the persisted file path and the
derived video identifier. -/
structure Job where
  filename : String
  videoID : String
deriving DecidableEq, Repr

/-! ## The admission queue: `WorkerPool.JobQueue`, a buffered Go channel

`NewWorkerPool(c, q)` does `make(chan Job, q)`: a buffered channel of
capacity `q`, initially open and empty. -/

/-- State of the buffered channel `JobQueue`: capacity fixed at
construction, current buffer contents (head = oldest), and whether
`close` has been called on it. -/
structure PoolQueue where
  cap : Nat
  jobs : List Job
  closed : Bool
deriving DecidableEq, Repr

/-- The channel as `make(chan Job, q)` creates it: open and empty. -/
def PoolQueue.mk0 (q : Nat) : PoolQueue :=
  { cap := q, jobs := [], closed := false }

/-- `WorkerPool.AddJob`:

```go
select {
case wp.JobQueue <- job:
    return true
default:
    return false
}
```

Go semantics of the `select`: the send case is ready iff the channel is
closed (executing it then panics) or the buffer has room; the `default`
branch runs only when the send is not ready. Hence: on a closed channel
the send case is chosen and panics (`none`); otherwise the job is
appended at the tail when `len < cap` (returning `true`), and `false` is
returned with the queue unchanged when the buffer is full. -/
def addJob (q : PoolQueue) (j : Job) : Option (Bool × PoolQueue) :=
  if q.closed then
    none
  else if q.jobs.length < q.cap then
    some (true, { q with jobs := q.jobs ++ [j] })
  else
    some (false, q)

/-- Result of a worker's receive (`job, ok := <-wp.JobQueue`, as iterated
by `for job := range wp.JobQueue`). -/
inductive RecvOutcome where
  /-- The buffer was nonempty: the oldest job is delivered. -/
  | job (j : Job) (rest : PoolQueue)
  /-- The channel is closed and drained: the range loop ends. -/
  | closedEmpty
  /-- The channel is open and empty: the receiver blocks. -/
  | blocked
deriving DecidableEq, Repr

/-- A receive from the buffered channel: takes the oldest buffered job if
any; on an empty buffer it ends iff the channel is closed, else blocks. -/
def recvJob (q : PoolQueue) : RecvOutcome :=
  match q.jobs with
  | j :: rest => .job j { q with jobs := rest }
  | [] => if q.closed then .closedEmpty else .blocked

/-- Iterated `AddJob`: the list of returned booleans together with the
final queue; `none` if any call panics. -/
def addAll (q : PoolQueue) : List Job → Option (List Bool × PoolQueue)
  | [] => some ([], q)
  | j :: js =>
    match addJob q j with
    | none => none
    | some (b, q1) =>
      match addAll q1 js with
      | none => none
      | some (bs, q2) => some (b :: bs, q2)

/-- The first action of `WorkerPool.Stop`: `close(wp.JobQueue)`. -/
def stopClose (q : PoolQueue) : PoolQueue :=
  { q with closed := true }

/-! ## Pool lifecycle: `Start`, the worker loops, and `Stop`

`Start` launches `C` goroutines, each registered in `wp.wg`; each worker
runs `for job := range wp.JobQueue { ... }` and `defer wp.wg.Done()`.
`Stop` is `close(wp.JobQueue); wp.wg.Wait()`.  The interleaved execution
is embedded as a labelled transition system: a worker is *idle* while it
sits at the `range` receive and *busy* while it holds a job in the loop
body; it exits (running its deferred `Done`) only when the receive
reports the channel closed and drained. -/

/-- Global state of one `WorkerPool` plus its producers. `admitted` logs
every job a successful `AddJob` placed in the channel, `processed` logs
every job whose loop body has completed. -/
structure PoolState where
  workerCount : Nat
  cap : Nat
  queue : List Job
  closed : Bool
  idle : Nat
  busy : List Job
  processed : List Job
  admitted : List Job
deriving DecidableEq, Repr

/-- State right after `NewWorkerPool(c, q)` and `Start`: empty open
channel, all `c` workers idle at the receive. -/
def PoolState.init (c q : Nat) : PoolState :=
  { workerCount := c, cap := q, queue := [], closed := false,
    idle := c, busy := [], processed := [], admitted := [] }

/-- One atomic event of the interleaved execution. -/
inductive PEvent where
  /-- An `AddJob` whose select send succeeds (open channel with room). -/
  | addOk (j : Job)
  /-- An `AddJob` whose select falls to `default` (open channel, full). -/
  | addFull (j : Job)
  /-- `Stop` runs `close(wp.JobQueue)`. -/
  | close
  /-- An idle worker's `range` receive delivers the oldest buffered job. -/
  | take
  /-- A busy worker finishes its loop body for job `j` and returns to the
  receive; distinct workers may finish in any order. -/
  | finish (j : Job)
  /-- An idle worker's receive observes the channel closed and drained;
  the loop ends and the deferred `wg.Done` runs. -/
  | exitWorker
deriving DecidableEq, Repr

/-- Small-step semantics; `none` means the event is not enabled in this
state (a send on a closed channel, which would panic, is likewise never
part of a run considered here). -/
def step (s : PoolState) : PEvent → Option PoolState
  | .addOk j =>
    if s.closed = false ∧ s.queue.length < s.cap then
      some { s with queue := s.queue ++ [j], admitted := s.admitted ++ [j] }
    else none
  | .addFull _ =>
    if s.closed = false ∧ ¬ s.queue.length < s.cap then some s else none
  | .close =>
    if s.closed = false then some { s with closed := true } else none
  | .take =>
    match s.queue with
    | j :: rest =>
      if 0 < s.idle then
        some { s with queue := rest, idle := s.idle - 1, busy := s.busy ++ [j] }
      else none
    | [] => none
  | .finish j =>
    if j ∈ s.busy then
      some { s with busy := s.busy.erase j,
                    processed := s.processed ++ [j], idle := s.idle + 1 }
    else none
  | .exitWorker =>
    if 0 < s.idle ∧ s.closed = true ∧ s.queue = [] then
      some { s with idle := s.idle - 1 }
    else none

/-- Run a sequence of events from a state. -/
def run (s : PoolState) : List PEvent → Option PoolState
  | [] => some s
  | e :: es =>
    match step s e with
    | none => none
    | some s1 => run s1 es

/-- The inductive invariant: admitted jobs are exactly the processed,
in-hand, and still-buffered ones (as a multiset); and a worker can only
have exited after the channel was closed and drained, after which the
buffer stays empty. -/
def PoolInv (s : PoolState) : Prop :=
  s.admitted.Perm (s.processed ++ s.busy ++ s.queue) ∧
  (s.idle + s.busy.length < s.workerCount → s.closed = true ∧ s.queue = [])

/-! ## The worker's loop body: the two-step ffmpeg pipeline -/

/-- Outcome of the two external `ffmpeg` invocations for one job (the
transcoder is an opaque collaborator: only success/failure matters). -/
structure FfmpegEnv where
  gifOk : Bool
  jpgOk : Bool
deriving DecidableEq, Repr

/-- Observable effects of one iteration of the worker loop body. -/
structure JobTrace where
  gifRuns : Nat
  jpgRuns : Nat
  gifOutput : String
  jpgOutput : String
  removedFiles : List String
  requeued : List Job
deriving DecidableEq, Repr

/-- The body of `WorkerPool.worker` for one received job: build the two
output names from `job.VideoID`, run the GIF command (`continue` on
error), then run the JPG command (`continue` on error), then log.  The
code contains no `os.Remove`, no retry loop and no re-enqueue, which the
trace records as empty effect lists. -/
def processJob (job : Job) (env : FfmpegEnv) : JobTrace :=
  let outputGif := "uploads/" ++ job.videoID ++ "_preview.gif"
  let outputJpg := "uploads/" ++ job.videoID ++ "_thumbnail.jpg"
  let t0 : JobTrace :=
    { gifRuns := 1, jpgRuns := 0, gifOutput := outputGif,
      jpgOutput := outputJpg, removedFiles := [], requeued := [] }
  if env.gifOk = false then
    t0
  else
    { t0 with jpgRuns := t0.jpgRuns + 1 }

/-- The worker's `for job := range wp.JobQueue` loop over the jobs it
receives, with the transcoder outcomes given per job. -/
def workerLoop (env : Job → FfmpegEnv) : List Job → List JobTrace
  | [] => []
  | j :: rest => processJob j (env j) :: workerLoop env rest

/-! ## `handleListVideos`: the `GET /api/videos` endpoint

`var videos []string` is Go's nil slice, which `encoding/json` encodes
as the JSON literal `null`; a slice that has been appended to encodes as
a JSON array.  The nil/non-nil distinction is kept explicitly. -/

/-- One result of `os.ReadDir("uploads")`. -/
structure DirEntry where
  name : String
  isDir : Bool
deriving DecidableEq, Repr

/-- `strings.HasSuffix(s, suffix)`. -/
def goHasSuffix (s suffix : String) : Bool :=
  suffix.data.isSuffixOf s.data

/-- A Go `[]string` value: `none` is the nil slice. -/
def goAppend : Option (List String) → String → Option (List String)
  | none, x => some [x]
  | some l, x => some (l ++ [x])

/-- The filter loop of `handleListVideos`, starting from the nil slice
`var videos []string`. -/
def collectVideos : List DirEntry → Option (List String) → Option (List String)
  | [], acc => acc
  | e :: es, acc =>
    if e.isDir = false ∧ goHasSuffix e.name ".mp4" then
      collectVideos es (goAppend acc e.name)
    else
      collectVideos es acc

/-- The JSON value `json.NewEncoder(w).Encode(videos)` writes. -/
inductive JsonVideos where
  | null
  | arr (names : List String)
deriving DecidableEq, Repr

/-- `encoding/json` on a `[]string`: nil encodes as `null`, otherwise as
the array of its elements. -/
def encodeStringSlice : Option (List String) → JsonVideos
  | none => .null
  | some l => .arr l

/-- `handleListVideos` on the directory listing (the `ReadDir` success
path). -/
def handleListVideos (entries : List DirEntry) : JsonVideos :=
  encodeStringSlice (collectVideos entries none)

/-- The spec-side filter: non-directory entries with the `.mp4` suffix. -/
def mp4Entries (entries : List DirEntry) : List String :=
  (entries.filter (fun e => e.isDir = false ∧ goHasSuffix e.name ".mp4")).map
    (fun e => e.name)

/-! ## `path/filepath` on unix: `Base`, `Clean`, `Join`

Embedded from the Go standard library sources these handlers call
(`filepath.Base`, `filepath.Join`, the latter via `Clean`), with the unix
separator `/` and the empty volume name.  Strings are processed as their
character lists; the separator and the dot are ASCII, so character-level
processing agrees with Go's byte-level processing on any UTF-8 input. -/

/-- `os.IsPathSeparator` on unix. -/
def isPathSeparator (c : Char) : Bool := c = '/'

/-- The trailing-slash-stripping loop of `filepath.Base`. -/
def dropTrailingSeps (s : List Char) : List Char :=
  (s.reverse.dropWhile isPathSeparator).reverse

/-- `path[i+1:]` for `i` the last separator index (the whole path when no
separator occurs): the maximal separator-free suffix. -/
def afterLastSep (s : List Char) : List Char :=
  (s.reverse.takeWhile (fun c => ! isPathSeparator c)).reverse

/-- `filepath.Base`: `"."` on empty input; otherwise strip trailing
separators, take the last element, and answer `"/"` when the path
consisted only of separators. -/
def filepathBase (path : List Char) : List Char :=
  if path = [] then ['.']
  else
    let p1 := dropTrailingSeps path
    let p2 := afterLastSep p1
    if p2 = [] then ['/'] else p2

/-- `r+1 == n || os.IsPathSeparator(path[r+1])` for the remainder list. -/
def atEndOrSep : List Char → Bool
  | [] => true
  | c :: _ => isPathSeparator c

/-- `path[r+1] == '.' && (r+2 == n || os.IsPathSeparator(path[r+2]))`. -/
def dotThenEndOrSep : List Char → Bool
  | [] => false
  | c :: rest => c = '.' && atEndOrSep rest

/-- The inner backtracking loop of `Clean`'s `..` case, on the reversed
output buffer after the unconditional `out.w--` pop: keep popping while
the buffer is longer than `dotdot` and the last popped character was not
a separator. -/
def backtrackAux (dotdot : Nat) : Char → List Char → List Char
  | lastPopped, [] =>
    if dotdot < 0 ∧ ¬ isPathSeparator lastPopped then [] else []
  | lastPopped, c :: rest =>
    if dotdot < (c :: rest).length ∧ ¬ isPathSeparator lastPopped then
      backtrackAux dotdot c rest
    else c :: rest

/-- The `..` case when `out.w > dotdot`: pop one character, then run the
inner loop. -/
def backtrack (dotdot : Nat) : List Char → List Char
  | [] => []
  | c :: rest => backtrackAux dotdot c rest

/-- The main loop of `filepath.Clean` (Plan 9 `cleanname`): `out` is the
reversed output buffer (`out.length` is `out.w`), `dotdot` marks the
prefix no `..` may pop past.  Branches, in source order: consume a
separator; consume a `.` element; handle a `..` element (backtrack past
the last element, or emit a literal `..` when not rooted); copy the next
element, preceded by a separator unless at the buffer start. -/
def cleanLoop : Nat → List Char → List Char → Nat → Bool → List Char
  | _, [], out, _, _ => out
  | 0, _ :: _, out, _, _ => out
  | fuel + 1, c :: rs, out, dotdot, rooted =>
    if isPathSeparator c then
      cleanLoop fuel rs out dotdot rooted
    else if c = '.' ∧ atEndOrSep rs then
      cleanLoop fuel rs out dotdot rooted
    else if c = '.' ∧ dotThenEndOrSep rs then
      if dotdot < out.length then
        cleanLoop fuel rs.tail (backtrack dotdot out) dotdot rooted
      else if rooted = false then
        let outa := if out.length ≠ 0 then '/' :: out else out
        let out2 := '.' :: '.' :: outa
        cleanLoop fuel rs.tail out2 out2.length rooted
      else
        cleanLoop fuel rs.tail out dotdot rooted
    else
      let p : Char → Bool := fun x => ! isPathSeparator x
      let out1 :=
        if (rooted ∧ out.length ≠ 1) ∨ (rooted = false ∧ out.length ≠ 0) then
          '/' :: out
        else out
      cleanLoop fuel (rs.dropWhile p) ((rs.takeWhile p).reverse ++ (c :: out1))
        dotdot rooted

/-- `filepath.Clean` on unix: empty input cleans to `"."`; a rooted path
starts the buffer with the separator; an empty final buffer yields
`"."`.  The loop is run on a fuel of the remaining input's length: every
iteration consumes at least one input character, so the fuel never runs
out and only bounds the recursion. -/
def cleanList (path : List Char) : List Char :=
  match path with
  | [] => ['.']
  | c :: rest =>
    let rooted := isPathSeparator c
    let out :=
      if rooted then cleanLoop rest.length rest ['/'] 1 true
      else cleanLoop (c :: rest).length (c :: rest) [] 0 false
    if out = [] then ['.'] else out.reverse

/-- `filepath.Base` on `String`. -/
def goBase (s : String) : String := String.mk (filepathBase s.data)

/-- `filepath.Clean` on `String`. -/
def goClean (s : String) : String := String.mk (cleanList s.data)

/-- `filepath.Join(a, b)`: `Clean` of the elements joined by the
separator, starting from the first nonempty element. -/
def goJoin2 (a b : String) : String :=
  if a ≠ "" then goClean (a ++ "/" ++ b)
  else if b ≠ "" then goClean b
  else ""

/-! ## Identifier derivation in the two upload handlers -/

/-- The gRPC handler's id: `fmt.Sprintf("video_%s", filepath.Base(req.Filename))`
followed by a second `filepath.Base`. -/
def grpcVideoID (reqFilename : String) : String :=
  goBase ("video_" ++ goBase reqFilename)

/-- The gRPC handler's `savePath := filepath.Join("uploads", videoID)`. -/
def grpcSavePath (reqFilename : String) : String :=
  goJoin2 "uploads" (grpcVideoID reqFilename)

/-- The web handler's id: `fmt.Sprintf("video_web_%s", filepath.Base(header.Filename))`
(no second `Base`). -/
def webVideoID (headerFilename : String) : String :=
  "video_web_" ++ goBase headerFilename

/-- The web handler's `savePath := filepath.Join("uploads", videoID)`. -/
def webSavePath (headerFilename : String) : String :=
  goJoin2 "uploads" (webVideoID headerFilename)

/-! ## The gRPC streaming handler `grpcServer.UploadVideo`

The handler's `for { req, err := stream.Recv(); ... }` loop is run over an
explicit trace of receive results.  File-system and admission outcomes
are environment inputs (`createOk`, `writeOk` per chunk; `addJobOk` for
the one `AddJob` call). -/

/-- gRPC status codes the handler returns. -/
inductive GrpcStatus where
  | ok
  | resourceExhausted
  | internal
  | unknown
deriving DecidableEq, Repr

/-- One `stream.Recv()` result: end of stream (`io.EOF`), another
receive error, or a data chunk (with the outcome the environment gives
the `os.Create` / `file.Write` calls it triggers). -/
inductive StreamEvent where
  | eof
  | recvError
  | chunk (filename : String) (size : Nat) (createOk : Bool) (writeOk : Bool)
deriving DecidableEq, Repr

/-- The handler's local state: `file` holds the created file's name
(`file.Name()`), `nil` before the first chunk. `closes` counts `Close`
calls on the handle, `creates` successful `os.Create` calls. -/
structure SessionState where
  file : Option String
  videoID : String
  fileSize : Nat
  closes : Nat
  creates : Nat
  removed : Bool
deriving DecidableEq, Repr

/-- State at handler entry: `var file *os.File; var videoID string;
var fileSize int`. -/
def SessionState.init : SessionState :=
  { file := none, videoID := "", fileSize := 0, closes := 0, creates := 0,
    removed := false }

/-- Everything observable when the handler returns. -/
structure SessionResult where
  status : GrpcStatus
  videoID : String
  jobAdded : Option Job
  addJobResult : Option Bool
  created : Bool
  creates : Nat
  closes : Nat
  removed : Bool
  fileSize : Nat
deriving DecidableEq, Repr

/-- How a session ends: a runtime fault (nil-pointer dereference) or a
normal return. -/
inductive SessionOutcome where
  | fault
  | done (r : SessionResult)
deriving DecidableEq, Repr

/-- `grpcServer.UploadVideo` over a trace of receive results; `none`
means the trace ended with the handler still blocked in `Recv`.

Paths, in source order: on `io.EOF` close the handle if non-nil, then
build `Job{Filename: file.Name(), VideoID: videoID}` — a nil `file`
faults here — and try `AddJob`: on `false` remove the file and return
`ResourceExhausted`, else return success via `SendAndClose` (the `defer
file.Close()` registered at creation runs on either return, a second
close).  On any other receive error return `Unknown` (deferred close
runs if a file exists).  On a chunk with `file == nil` derive the id,
create the file (an error returns `Internal` with no handle open; the
`defer` is registered only after a successful create), then write (a
write error returns `Internal`, deferred close runs). -/
def runUpload (addJobOk : Bool) :
    List StreamEvent → SessionState → Option SessionOutcome
  | [], _ => none
  | e :: rest, st =>
    match e with
    | .eof =>
      let st1 := match st.file with
        | some _ => { st with closes := st.closes + 1 }
        | none => st
      match st1.file with
      | none => some .fault
      | some name =>
        if addJobOk then
          some (.done {
            status := .ok, videoID := st1.videoID,
            jobAdded := some ⟨name, st1.videoID⟩, addJobResult := some true,
            created := true, creates := st1.creates,
            closes := st1.closes + 1, removed := st1.removed,
            fileSize := st1.fileSize })
        else
          some (.done {
            status := .resourceExhausted, videoID := st1.videoID,
            jobAdded := none, addJobResult := some false, created := true,
            creates := st1.creates, closes := st1.closes + 1, removed := true,
            fileSize := st1.fileSize })
    | .recvError =>
      some (.done {
        status := .unknown, videoID := st.videoID,
        jobAdded := none, addJobResult := none, created := st.file.isSome,
        creates := st.creates,
        closes := st.closes + (if st.file.isSome then 1 else 0),
        removed := st.removed, fileSize := st.fileSize })
    | .chunk fname sz createOk writeOk =>
      match st.file with
      | none =>
        let vid := grpcVideoID fname
        let savePath := grpcSavePath fname
        if createOk then
          let st1 : SessionState := { st with
            file := some savePath,
            videoID := vid, creates := st.creates + 1 }
          if writeOk then
            runUpload addJobOk rest { st1 with fileSize := st1.fileSize + sz }
          else
            some (.done {
              status := .internal, videoID := vid,
              jobAdded := none, addJobResult := none, created := true,
              creates := st1.creates, closes := st1.closes + 1,
              removed := st1.removed, fileSize := st1.fileSize })
        else
          some (.done {
            status := .internal, videoID := vid, jobAdded := none,
            addJobResult := none, created := false, creates := st.creates,
            closes := st.closes, removed := st.removed,
            fileSize := st.fileSize })
      | some _ =>
        if writeOk then
          runUpload addJobOk rest { st with fileSize := st.fileSize + sz }
        else
          some (.done {
            status := .internal, videoID := st.videoID,
            jobAdded := none, addJobResult := none, created := true,
            creates := st.creates, closes := st.closes + 1,
            removed := st.removed, fileSize := st.fileSize })

/-! ## The web handler `handleWebUpload` -/

/-- The relevant part of the HTTP request method. -/
inductive HttpMethod where
  | get
  | post
  | other
deriving DecidableEq, Repr

/-- Environment of one `handleWebUpload` call: request method, whether
`r.FormFile("video")` yields a file, the client filename, and outcomes of
`os.Create`, `io.Copy` and `AddJob`. -/
structure WebInput where
  method : HttpMethod
  formFileOk : Bool
  filename : String
  createOk : Bool
  copyOk : Bool
  addJobOk : Bool
deriving DecidableEq, Repr

/-- Observable outcome of `handleWebUpload`: HTTP status code written,
whether the saved file was removed, the job admitted (if any), and
whether `AddJob` was called and what it returned. -/
structure WebResult where
  code : Nat
  removed : Bool
  jobAdded : Option Job
  addJobResult : Option Bool
  created : Bool
deriving DecidableEq, Repr

/-- `handleWebUpload`, in source order: 405 on non-POST, 400 on a missing
form file, 500 on create or copy failure (the copy-failure file is
closed but not removed), and for the admission attempt: on `AddJob`
returning false, remove the saved file and answer 503; on success answer
200. -/
def handleWebUpload (i : WebInput) : WebResult :=
  if i.method ≠ .post then
    { code := 405, removed := false, jobAdded := none, addJobResult := none,
      created := false }
  else if i.formFileOk = false then
    { code := 400, removed := false, jobAdded := none, addJobResult := none,
      created := false }
  else
    let videoID := webVideoID i.filename
    let savePath := webSavePath i.filename
    if i.createOk = false then
      { code := 500, removed := false, jobAdded := none, addJobResult := none,
        created := false }
    else if i.copyOk = false then
      { code := 500, removed := false, jobAdded := none, addJobResult := none,
        created := true }
    else if i.addJobOk = false then
      { code := 503, removed := true, jobAdded := none,
        addJobResult := some false, created := true }
    else
      { code := 200, removed := false, jobAdded := some ⟨savePath, videoID⟩,
        addJobResult := some true, created := true }

/-! ## `os.Create` semantics -/

/-- A flat file system: names with file sizes. -/
def fsLookup (fs : List (String × Nat)) (name : String) : Option Nat :=
  (fs.find? (fun p => p.1 = name)).map (fun p => p.2)

/-- `os.Create(name)` is `OpenFile(name, O_RDWR|O_CREATE|O_TRUNC, 0666)`:
an existing file of the same name is silently truncated to length zero,
a missing one is created empty; existence is not an error. -/
def osCreate (fs : List (String × Nat)) (name : String) :
    List (String × Nat) :=
  if fs.any (fun p => p.1 = name) then
    fs.map (fun p => if p.1 = name then (name, 0) else p)
  else
    fs ++ [(name, 0)]

/-- Modelled from the spec: the exclusive creation the spec's words
"create the destination file exclusively for this session" would demand
(an `O_EXCL`-style open), failing when the name already exists — stated
only to contrast with `osCreate`, which the code actually calls. -/
def createExclusiveSpec (fs : List (String × Nat)) (name : String) :
    Option (List (String × Nat)) :=
  if fs.any (fun p => p.1 = name) then none
  else some (fs ++ [(name, 0)])

/-! ## Theorems -/

theorem addAll_all_true (js : List Job) :
    ∀ q : PoolQueue, q.closed = false → q.jobs.length + js.length ≤ q.cap →
      addAll q js = some (List.replicate js.length true,
        { q with jobs := q.jobs ++ js }) := by
  induction js with
  | nil => intro q _ _; simp [addAll]
  | cons j js ih =>
    intro q hop hle
    have hlt : q.jobs.length < q.cap := by
      simp at hle; omega
    have h1 : addJob q j = some (true, { q with jobs := q.jobs ++ [j] }) := by
      simp [addJob, hop, hlt]
    have h2 := ih { q with jobs := q.jobs ++ [j] } (by simpa using hop)
      (by simp; simp at hle; omega)
    simp [addAll, h1, h2, List.replicate]

/-- C1: for every pool with queue capacity `Q ≥ 1`, on any state an
`AddJob`/dequeue sequence can produce (the channel stays open under those
operations): `AddJob` returns true and appends at the tail iff the length
is `< Q`, else returns false leaving the queue unchanged; from empty,
exactly `Q` consecutive `AddJob` calls succeed, the `(Q+1)`-th returns
false, and after one dequeue exactly one more succeeds (the next fails
again). -/
theorem addJob_capacity_contract (Q : Nat) (hQ : 1 ≤ Q) :
    (∀ (q : PoolQueue) (j : Job), q.cap = Q → q.closed = false →
      (q.jobs.length < Q →
        addJob q j = some (true, { q with jobs := q.jobs ++ [j] })) ∧
      (¬ q.jobs.length < Q → addJob q j = some (false, q))) ∧
    (∀ (j0 : Job) (rest : List Job) (j j2 : Job),
      (j0 :: rest).length = Q →
      addAll (PoolQueue.mk0 Q) (j0 :: rest) =
        some (List.replicate Q true, ⟨Q, j0 :: rest, false⟩) ∧
      addJob ⟨Q, j0 :: rest, false⟩ j = some (false, ⟨Q, j0 :: rest, false⟩) ∧
      recvJob ⟨Q, j0 :: rest, false⟩ = .job j0 ⟨Q, rest, false⟩ ∧
      addJob ⟨Q, rest, false⟩ j = some (true, ⟨Q, rest ++ [j], false⟩) ∧
      addJob ⟨Q, rest ++ [j], false⟩ j2 =
        some (false, ⟨Q, rest ++ [j], false⟩)) := by
  constructor
  · intro q j hcap hop
    constructor
    · intro hlt
      simp [addJob, hop, hcap, hlt]
    · intro hge
      simp [addJob, hop, hcap]
      omega
  · intro j0 rest j j2 hlen
    refine ⟨?_, ?_, ?_, ?_, ?_⟩
    · have h := addAll_all_true (j0 :: rest) (PoolQueue.mk0 Q) rfl
        (by simp [PoolQueue.mk0, hlen])
      simpa [PoolQueue.mk0, hlen] using h
    · simp [addJob, hlen]
    · simp [recvJob]
    · have : rest.length < Q := by simp at hlen; omega
      simp [addJob, this]
    · have h2 : ¬ (rest ++ [j]).length < Q := by simp at hlen ⊢; omega
      simp only [addJob, if_neg h2]
      simp

/-- Witness for `addJob_capacity_contract` at `Q = 2` with two concrete
jobs: both parts of the contract evaluate as stated. -/
theorem addJob_capacity_contract_witness :
    1 ≤ 2 ∧
    (addJob ⟨2, [⟨"a", "a"⟩], false⟩ ⟨"b", "b"⟩ =
      some (true, ⟨2, [⟨"a", "a"⟩, ⟨"b", "b"⟩], false⟩)) ∧
    (addAll (PoolQueue.mk0 2) [⟨"a", "a"⟩, ⟨"b", "b"⟩] =
      some ([true, true], ⟨2, [⟨"a", "a"⟩, ⟨"b", "b"⟩], false⟩)) := by
  have h := addJob_capacity_contract 2 (by decide)
  have h1 := (h.1 ⟨2, [⟨"a", "a"⟩], false⟩ ⟨"b", "b"⟩ rfl rfl).1 (by decide)
  have h2 := (h.2 ⟨"a", "a"⟩ [⟨"b", "b"⟩] ⟨"c", "c"⟩ ⟨"d", "d"⟩ rfl).1
  exact ⟨by decide, h1, by simpa using h2⟩

/-- C3 (the code, contrary to the claim): after `Stop` has run
`close(wp.JobQueue)`, any `AddJob` chooses the ready send case of its
`select` and the send on a closed channel is a runtime panic — the
process faults instead of returning `false`. -/
theorem addJob_after_close_panics (q : PoolQueue) (j : Job) :
    addJob (stopClose q) j = none := by
  simp [addJob, stopClose]

theorem poolInv_init (c q : Nat) : PoolInv (PoolState.init c q) := by
  constructor
  · simp [PoolState.init]
  · intro h
    simp [PoolState.init] at h

theorem step_preserves_workerCount {s s1 : PoolState} {e : PEvent}
    (h : step s e = some s1) : s1.workerCount = s.workerCount := by
  cases e with
  | addOk j => simp [step] at h; obtain ⟨_, rfl⟩ := h; rfl
  | addFull j => simp [step] at h; obtain ⟨_, rfl⟩ := h; rfl
  | close => simp [step] at h; obtain ⟨_, rfl⟩ := h; rfl
  | take =>
    cases hq : s.queue with
    | nil => simp [step, hq] at h
    | cons j rest => simp [step, hq] at h; obtain ⟨_, rfl⟩ := h; rfl
  | finish j => simp [step] at h; obtain ⟨_, rfl⟩ := h; rfl
  | exitWorker => simp [step] at h; obtain ⟨_, rfl⟩ := h; rfl

theorem step_preserves_inv {s s1 : PoolState} {e : PEvent}
    (hinv : PoolInv s) (h : step s e = some s1) : PoolInv s1 := by
  obtain ⟨hperm, hexit⟩ := hinv
  cases e with
  | addOk j =>
    simp [step] at h
    obtain ⟨⟨hop, _⟩, rfl⟩ := h
    refine ⟨?_, ?_⟩
    · simpa [← List.append_assoc] using hperm.append_right [j]
    · intro hlt
      simp at hlt
      exact absurd (hexit hlt).1 (by simp [hop])
  | addFull j =>
    simp [step] at h
    obtain ⟨⟨hop, _⟩, rfl⟩ := h
    exact ⟨hperm, hexit⟩
  | close =>
    simp [step] at h
    obtain ⟨hop, rfl⟩ := h
    refine ⟨hperm, ?_⟩
    intro hlt
    simp at hlt
    exact absurd (hexit hlt).1 (by simp [hop])
  | take =>
    simp [step] at h
    cases hq : s.queue with
    | nil => simp [hq] at h
    | cons j rest =>
      simp [hq] at h
      obtain ⟨hid, rfl⟩ := h
      refine ⟨?_, ?_⟩
      · simpa [List.append_assoc, hq] using hperm
      · intro hlt
        simp at hlt
        have hsum : s.idle + s.busy.length < s.workerCount := by omega
        exact absurd (hexit hsum).2 (by simp [hq])
  | finish j =>
    simp [step] at h
    obtain ⟨hmem, rfl⟩ := h
    refine ⟨?_, ?_⟩
    · refine hperm.trans (List.Perm.append_right s.queue ?_)
      have h2 : (s.processed ++ s.busy).Perm
          (s.processed ++ (j :: s.busy.erase j)) :=
        List.Perm.append_left s.processed (List.perm_cons_erase hmem)
      simpa [List.append_assoc] using h2
    · intro hlt
      simp at hlt
      have hlen : 0 < s.busy.length := List.length_pos.mpr
        (List.ne_nil_of_mem hmem)
      have hsum : s.idle + s.busy.length < s.workerCount := by
        have := List.length_erase_of_mem hmem
        omega
      exact hexit hsum
  | exitWorker =>
    simp [step] at h
    obtain ⟨⟨hid, hcl, hq⟩, rfl⟩ := h
    exact ⟨hperm, fun _ => ⟨hcl, hq⟩⟩

theorem run_preserves_inv (events : List PEvent) :
    ∀ s s1 : PoolState, PoolInv s → run s events = some s1 →
      PoolInv s1 ∧ s1.workerCount = s.workerCount := by
  induction events with
  | nil => intro s s1 hinv h; simp [run] at h; subst h; exact ⟨hinv, rfl⟩
  | cons e es ih =>
    intro s s1 hinv h
    simp [run] at h
    cases hstep : step s e with
    | none => simp [hstep] at h
    | some s2 =>
      simp [hstep] at h
      obtain ⟨hinv2, hwc⟩ := ih s2 s1 (step_preserves_inv hinv hstep) h
      exact ⟨hinv2, hwc.trans (step_preserves_workerCount hstep)⟩

/-- C2: for a pool started with `C ≥ 1` workers, whenever `Stop` can
return — `wg.Wait` sees all workers gone, i.e. no worker is idle at the
receive and none holds a job — every job admitted before the queue's
closure has been taken by some worker and fully processed (a permutation,
as completion order may differ), the buffer is empty, and the channel is
indeed closed: no admitted job is dropped at shutdown. -/
theorem stop_drains_all_admitted (c q : Nat) (events : List PEvent)
    (s : PoolState) (hc : 1 ≤ c)
    (hrun : run (PoolState.init c q) events = some s)
    (hidle : s.idle = 0) (hbusy : s.busy = []) :
    s.admitted.Perm s.processed ∧ s.queue = [] ∧ s.closed = true := by
  obtain ⟨⟨hperm, hexit⟩, hwc⟩ :=
    run_preserves_inv events (PoolState.init c q) s (poolInv_init c q) hrun
  have hsum : s.idle + s.busy.length < s.workerCount := by
    simp [hidle, hbusy, hwc, PoolState.init]; omega
  obtain ⟨hcl, hq⟩ := hexit hsum
  refine ⟨?_, hq, hcl⟩
  simpa [hbusy, hq] using hperm

/-- Witness for `stop_drains_all_admitted`: one worker, capacity one; the
run admits one job, closes, takes, finishes, and exits; the final state
has processed exactly the admitted job with an empty closed queue. -/
theorem stop_drains_all_admitted_witness :
    (List.Perm [Job.mk "f" "v"] [Job.mk "f" "v"]) ∧
    ([] : List Job) = [] ∧ true = true := by
  have h := stop_drains_all_admitted 1 1
    [.addOk ⟨"f", "v"⟩, .close, .take, .finish ⟨"f", "v"⟩, .exitWorker]
    { workerCount := 1, cap := 1, queue := [], closed := true, idle := 0,
      busy := [], processed := [⟨"f", "v"⟩], admitted := [⟨"f", "v"⟩] }
    (by decide) (by decide) rfl rfl
  exact h

/-- C8: the thumbnail (JPG) step runs iff the preview (GIF) step
succeeded; neither step is ever retried; no file is removed (neither the
step-1 artifact nor the original upload); nothing is re-enqueued; and the
worker processes every queued job exactly once, in order, whatever each
job's step outcomes are. -/
theorem worker_failure_policy :
    (∀ (job : Job) (env : FfmpegEnv),
      (processJob job env).gifRuns = 1 ∧
      (processJob job env).jpgRuns = (if env.gifOk then 1 else 0) ∧
      (processJob job env).removedFiles = [] ∧
      (processJob job env).requeued = []) ∧
    (∀ (env : Job → FfmpegEnv) (jobs : List Job),
      workerLoop env jobs = jobs.map (fun j => processJob j (env j))) := by
  constructor
  · intro job env
    cases h : env.gifOk <;> simp [processJob, h]
  · intro env jobs
    induction jobs with
    | nil => simp [workerLoop]
    | cons j rest ih => simp [workerLoop, ih]

theorem collectVideos_some (entries : List DirEntry) :
    ∀ l : List String,
      collectVideos entries (some l) = some (l ++ mp4Entries entries) := by
  induction entries with
  | nil => intro l; simp [collectVideos, mp4Entries]
  | cons e es ih =>
    intro l
    by_cases h : e.isDir = false ∧ goHasSuffix e.name ".mp4"
    · simp [collectVideos, h, goAppend, ih, mp4Entries, List.filter_cons]
    · simp [collectVideos, h, ih, mp4Entries, List.filter_cons]

theorem collectVideos_nil_acc (entries : List DirEntry) :
    collectVideos entries none =
      if mp4Entries entries = [] then none else some (mp4Entries entries) := by
  induction entries with
  | nil => simp [collectVideos, mp4Entries]
  | cons e es ih =>
    by_cases h : e.isDir = false ∧ goHasSuffix e.name ".mp4"
    · simp [collectVideos, h, goAppend, collectVideos_some, mp4Entries,
        List.filter_cons]
    · simp [collectVideos, h, ih, mp4Entries, List.filter_cons]

/-- C9 counterexample: on an uploads directory with no `.mp4` entry (here
one directory entry only), the response body is the JSON literal `null`,
not the empty JSON array claimed. -/
theorem listVideos_empty_is_null :
    handleListVideos [⟨"sub", true⟩] = .null ∧
    handleListVideos [⟨"sub", true⟩] ≠ .arr [] := by
  constructor
  · rfl
  · intro h
    simp [handleListVideos, collectVideos, encodeStringSlice] at h

/-- C9 amended: the endpoint responds with the JSON array of exactly the
names of the non-directory `.mp4`-suffixed entries whenever at least one
such entry exists; when none exists the nil slice encodes as JSON `null`
rather than the empty array. -/
theorem listVideos_exact (entries : List DirEntry) :
    handleListVideos entries =
      if mp4Entries entries = [] then .null else .arr (mp4Entries entries) := by
  rw [handleListVideos, collectVideos_nil_acc]
  by_cases h : mp4Entries entries = [] <;> simp [h, encodeStringSlice]

/-! ### Auxiliary facts about `Base` and `Clean` -/

theorem takeWhile_eq_self_of {p : Char → Bool} :
    ∀ l : List Char, (∀ c ∈ l, p c = true) → l.takeWhile p = l := by
  intro l h
  induction l with
  | nil => rfl
  | cons a l ih =>
    rw [List.takeWhile_cons, if_pos (h a (by simp))]
    rw [ih fun c hc => h c (by simp [hc])]

theorem dropWhile_head_false {p : Char → Bool} :
    ∀ (l res : List Char) (c : Char), l.dropWhile p = c :: res → p c = false := by
  intro l
  induction l with
  | nil => intro res c h; simp [List.dropWhile] at h
  | cons a l ih =>
    intro res c h
    rw [List.dropWhile_cons] at h
    by_cases ha : p a = true
    · exact ih res c (by simpa [ha] using h)
    · obtain ⟨rfl, -⟩ := by simpa [ha] using h
      simpa using ha

theorem mem_afterLastSep {c : Char} {s : List Char} (h : c ∈ afterLastSep s) :
    isPathSeparator c = false := by
  rw [afterLastSep, List.mem_reverse] at h
  have := List.mem_takeWhile_imp h
  simpa using this

/-- `Base` on a nonempty all-non-separator path is the identity. -/
theorem filepathBase_eq_self {xs : List Char} (hne : xs ≠ [])
    (h : ∀ c ∈ xs, isPathSeparator c = false) : filepathBase xs = xs := by
  have hdrop : dropTrailingSeps xs = xs := by
    rw [dropTrailingSeps]
    have : xs.reverse.dropWhile isPathSeparator = xs.reverse := by
      cases hx : xs.reverse with
      | nil => simp
      | cons a l =>
        rw [List.dropWhile_cons, if_neg]
        simp only [Bool.not_eq_true]
        exact h a (by rw [← List.mem_reverse, hx]; simp)
    rw [this, List.reverse_reverse]
  have htake : afterLastSep xs = xs := by
    rw [afterLastSep]
    rw [takeWhile_eq_self_of xs.reverse
      (fun c hc => by simp [h c (List.mem_reverse.mp hc)])]
    exact xs.reverse_reverse
  rw [filepathBase, if_neg hne]
  simp only [hdrop, htake]
  rw [if_neg hne]

/-- `Base` either answers the all-separators marker `"/"` or a list free
of separators. -/
theorem filepathBase_no_sep (s : List Char) :
    filepathBase s = ['/'] ∨
      ∀ c ∈ filepathBase s, isPathSeparator c = false := by
  rw [filepathBase]
  by_cases hs : s = []
  · right; simp [hs, isPathSeparator]
  · rw [if_neg hs]
    by_cases hp : afterLastSep (dropTrailingSeps s) = []
    · left; simp [hp]
    · right
      rw [if_neg hp]
      exact fun c hc => mem_afterLastSep hc

/-- Prefixing a separator-free base name with `"video_"` keeps it fixed
under the outer `Base`. -/
theorem filepathBase_video_prepend (b : List Char)
    (hb : ∀ c ∈ b, isPathSeparator c = false) :
    filepathBase ("video_".data ++ b) = "video_".data ++ b := by
  apply filepathBase_eq_self (by simp)
  intro c hc
  rcases List.mem_append.mp hc with hl | hr
  · have hlit : ∀ x ∈ ['v', 'i', 'd', 'e', 'o', '_'], isPathSeparator x = false :=
      by decide
    exact hlit c hl
  · exact hb c hr

theorem dropWhile_eq_nil_of {p : Char → Bool} (l : List Char)
    (h : ∀ c ∈ l, p c = true) : l.dropWhile p = [] :=
  List.dropWhile_eq_nil_iff.mpr h

/-- `Clean "uploads/w"` for a nonempty separator-free word `w` not
starting with a dot leaves the path unchanged. -/
theorem cleanList_under_uploads (c0 : Char) (v : List Char)
    (hc0 : isPathSeparator c0 = false) (hc0d : c0 ≠ '.')
    (hv : ∀ c ∈ v, isPathSeparator c = false) :
    cleanList ("uploads".data ++ '/' :: c0 :: v) =
      "uploads".data ++ '/' :: c0 :: v := by
  have htv : v.takeWhile (fun x => ! isPathSeparator x) = v :=
    takeWhile_eq_self_of v (fun c hc => by simp [hv c hc])
  have hdv : v.dropWhile (fun x => ! isPathSeparator x) = [] :=
    dropWhile_eq_nil_of v (fun c hc => by simp [hv c hc])
  have hc0x : ¬ (c0 = '/') := by
    intro h; rw [h] at hc0; simp [isPathSeparator] at hc0
  have htv2 : List.takeWhile (fun x => ! decide (x = '/')) v = v := by
    simpa [isPathSeparator] using htv
  have hdv2 : List.dropWhile (fun x => ! decide (x = '/')) v = [] := by
    simpa [isPathSeparator] using hdv
  have s1 : cleanLoop (v.length + 9) ('u' :: 'p' :: 'l' :: 'o' :: 'a' :: 'd' ::
      's' :: '/' :: c0 :: v) [] 0 false =
      cleanLoop (v.length + 8) ('/' :: c0 :: v) ['s', 'd', 'a', 'o', 'l', 'p', 'u']
        0 false := by
    rw [show v.length + 9 = (v.length + 8) + 1 from rfl]
    rw [cleanLoop.eq_def]
    simp [isPathSeparator, List.takeWhile_cons, List.dropWhile_cons]
  have s2 : cleanLoop (v.length + 8) ('/' :: c0 :: v)
      ['s', 'd', 'a', 'o', 'l', 'p', 'u'] 0 false =
      cleanLoop (v.length + 7) (c0 :: v) ['s', 'd', 'a', 'o', 'l', 'p', 'u'] 0
        false := by
    rw [show v.length + 8 = (v.length + 7) + 1 from rfl]
    rw [cleanLoop.eq_def]
    simp [isPathSeparator]
  have s3 : cleanLoop (v.length + 7) (c0 :: v)
      ['s', 'd', 'a', 'o', 'l', 'p', 'u'] 0 false =
      v.reverse ++ c0 :: '/' :: ['s', 'd', 'a', 'o', 'l', 'p', 'u'] := by
    rw [show v.length + 7 = (v.length + 6) + 1 from rfl]
    rw [cleanLoop.eq_def]
    simp only [isPathSeparator, hc0x, hc0d, htv2, hdv2]
    simp [hc0x, hc0d, htv2, hdv2]
    rw [cleanLoop.eq_def]
  show (if cleanLoop (v.length + 9)
      ('u' :: 'p' :: 'l' :: 'o' :: 'a' :: 'd' :: 's' :: '/' :: c0 :: v) [] 0
      false = [] then ['.']
    else (cleanLoop (v.length + 9)
      ('u' :: 'p' :: 'l' :: 'o' :: 'a' :: 'd' :: 's' :: '/' :: c0 :: v) [] 0
      false).reverse) =
    'u' :: 'p' :: 'l' :: 'o' :: 'a' :: 'd' :: 's' :: '/' :: c0 :: v
  rw [s1, s2, s3]
  simp

theorem stringDataEq {a b : String} (h : a.data = b.data) : a = b := by
  cases a; cases b; exact congrArg String.mk h

/-- The gRPC id always starts with the `v` of its prefix and never
contains a separator. -/
theorem grpcVideoID_data (f : String) :
    ∃ rest : List Char, (grpcVideoID f).data = 'v' :: rest ∧
      ∀ c ∈ 'v' :: rest, isPathSeparator c = false := by
  have hdata : (grpcVideoID f).data =
      filepathBase ("video_".data ++ filepathBase f.data) := by
    show (goBase ("video_" ++ goBase f)).data = _
    rw [goBase, goBase]
    show filepathBase ("video_" ++ String.mk (filepathBase f.data)).data = _
    rw [String.data_append]
  rcases filepathBase_no_sep f.data with hb | hb
  · refine ⟨"ideo_".data, ?_, ?_⟩
    · rw [hdata, hb]
      decide
    · decide
  · have hpre := filepathBase_video_prepend (filepathBase f.data) hb
    refine ⟨"ideo_".data ++ filepathBase f.data, ?_, ?_⟩
    · rw [hdata, hpre]
      rfl
    · intro c hc
      rcases List.mem_cons.mp hc with rfl | hc2
      · rfl
      · rcases List.mem_append.mp hc2 with hl | hr
        · have hlit : ∀ x ∈ ("ideo_".data : List Char),
              isPathSeparator x = false := by decide
          exact hlit c hl
        · exact hb c hr

/-- The web id starts with `v` and is separator-free whenever the `Base`
of the client filename is not the all-separators marker. -/
theorem webVideoID_data (f : String) (hne : goBase f ≠ "/") :
    ∃ rest : List Char, (webVideoID f).data = 'v' :: rest ∧
      ∀ c ∈ 'v' :: rest, isPathSeparator c = false := by
  have hb : ∀ c ∈ filepathBase f.data, isPathSeparator c = false := by
    rcases filepathBase_no_sep f.data with hb | hb
    · exact absurd (by rw [goBase, hb]) hne
    · exact hb
  have hdata : (webVideoID f).data = "video_web_".data ++ filepathBase f.data := by
    show ("video_web_" ++ goBase f).data = _
    rw [String.data_append]
    rfl
  refine ⟨"ideo_web_".data ++ filepathBase f.data, ?_, ?_⟩
  · rw [hdata]
    rfl
  · intro c hc
    rcases List.mem_cons.mp hc with rfl | hc2
    · rfl
    · rcases List.mem_append.mp hc2 with hl | hr
      · have hlit : ∀ x ∈ ("ideo_web_".data : List Char),
            isPathSeparator x = false := by decide
        exact hlit c hl
      · exact hb c hr

/-- `Join("uploads", v)` for an id starting with `v` and free of
separators keeps the id verbatim directly under `uploads`. -/
theorem goJoin2_uploads (v : String) (rest : List Char)
    (hdata : v.data = 'v' :: rest)
    (hmem : ∀ c ∈ 'v' :: rest, isPathSeparator c = false) :
    goJoin2 "uploads" v = "uploads/" ++ v := by
  rw [goJoin2, if_pos (by decide)]
  apply stringDataEq
  show (cleanList ("uploads" ++ "/" ++ v).data) = ("uploads/" ++ v).data
  rw [String.data_append, String.data_append, String.data_append, hdata]
  have h := cleanList_under_uploads 'v' rest (by rfl) (by decide)
    (fun c hc => hmem c (by simp [hc]))
  exact h

/-- C7 counterexample: for the client filename `"/"` (a pure separator),
the web handler's id is `"video_web_/"`, which does contain a path
separator, refuting the claim for the HTTP path. -/
theorem webVideoID_sep_counterexample :
    webVideoID "/" = "video_web_/" ∧ '/' ∈ (webVideoID "/").data := by
  constructor
  · rfl
  · decide

/-- C7 amended: the gRPC id never contains a separator and its save path
is literally `uploads/<id>`; the web id is separator-free with save path
`uploads/<id>` except when `Base` of the filename is `"/"` (filename all
separators), where the id is `"video_web_/"` but `Join`'s cleaning still
pins the save path to `uploads/video_web_`; in all cases both save paths
stay directly under the uploads directory. -/
theorem sanitized_ids_stay_under_uploads (f : String) :
    (∀ c ∈ (grpcVideoID f).data, isPathSeparator c = false) ∧
    grpcSavePath f = "uploads/" ++ grpcVideoID f ∧
    (goBase f ≠ "/" →
      (∀ c ∈ (webVideoID f).data, isPathSeparator c = false) ∧
      webSavePath f = "uploads/" ++ webVideoID f) ∧
    (goBase f = "/" → webVideoID f = "video_web_/" ∧
      webSavePath f = "uploads/video_web_") := by
  obtain ⟨rest, hdata, hmem⟩ := grpcVideoID_data f
  refine ⟨?_, ?_, ?_, ?_⟩
  · intro c hc
    rw [hdata] at hc
    exact hmem c hc
  · exact goJoin2_uploads _ rest hdata hmem
  · intro hne
    obtain ⟨rest2, hdata2, hmem2⟩ := webVideoID_data f hne
    refine ⟨?_, goJoin2_uploads _ rest2 hdata2 hmem2⟩
    intro c hc
    rw [hdata2] at hc
    exact hmem2 c hc
  · intro heq
    have hv : webVideoID f = "video_web_/" := by
      show "video_web_" ++ goBase f = _
      rw [heq]
      rfl
    constructor
    · exact hv
    · show goJoin2 "uploads" (webVideoID f) = _
      rw [hv]
      decide

/-- Witness for `sanitized_ids_stay_under_uploads`: both implications
discharged at concrete filenames (`"a.mp4"` and the all-separator
`"//"`). -/
theorem sanitized_ids_stay_under_uploads_witness :
    (goBase "a.mp4" ≠ "/" ∧
      webSavePath "a.mp4" = "uploads/" ++ webVideoID "a.mp4") ∧
    (goBase "//" = "/" ∧ webSavePath "//" = "uploads/video_web_") :=
  ⟨⟨by decide,
    ((sanitized_ids_stay_under_uploads "a.mp4").2.2.1 (by decide)).2⟩,
   ⟨by decide,
    ((sanitized_ids_stay_under_uploads "//").2.2.2 (by decide)).2⟩⟩

/-! ## Theorems about the upload session and handlers -/

theorem runUpload_ne_fault (a : Bool) (evs : List StreamEvent) :
    ∀ st : SessionState, st.file.isSome = true →
      runUpload a evs st ≠ some .fault := by
  induction evs with
  | nil => intro st _ h; simp [runUpload] at h
  | cons e rest ih =>
    intro st hsome h
    obtain ⟨name, hf⟩ := Option.isSome_iff_exists.mp hsome
    cases e with
    | eof =>
      simp [runUpload, hf] at h
      split at h <;> simp at h
    | recvError =>
      simp [runUpload] at h
    | chunk f sz c w =>
      simp [runUpload, hf] at h
      by_cases hw : w = true
      · rw [if_pos hw] at h
        exact ih _ (by simp [hf]) h
      · rw [if_neg hw] at h
        simp at h

/-- C10: a session whose very first receive is end-of-stream reaches
`file.Name()` on the nil handle — a nil-pointer fault — and this is the
only faulting path: once a chunk has been received (so the handle
exists), no end-of-stream fault is possible. -/
theorem eof_without_chunk_faults (a : Bool) (evs : List StreamEvent) :
    runUpload a evs SessionState.init = some .fault ↔
      evs.head? = some .eof := by
  cases evs with
  | nil => simp [runUpload]
  | cons e rest =>
    cases e with
    | eof => simp [runUpload, SessionState.init]
    | recvError => simp [runUpload, SessionState.init]
    | chunk f sz c w =>
      have hne : runUpload a (.chunk f sz c w :: rest) SessionState.init ≠
          some .fault := by
        intro h
        simp [runUpload, SessionState.init] at h
        by_cases hc : c = true
        · rw [if_pos hc] at h
          by_cases hw : w = true
          · rw [if_pos hw] at h
            exact runUpload_ne_fault a rest _ (by simp) h
          · rw [if_neg hw] at h
            simp at h
        · rw [if_neg hc] at h
          simp at h
      simp [hne]

/-- C5 counterexample: on the plain happy path (one chunk, then
end-of-stream, admission succeeds) the created handle is closed twice —
the explicit `file.Close()` on the EOF path plus the deferred
`file.Close()` on return — not exactly once as claimed. -/
theorem upload_eof_double_close :
    runUpload true [.chunk "a.mp4" 5 true true, .eof] SessionState.init =
      some (.done {
        status := .ok, videoID := "video_a.mp4",
        jobAdded := some ⟨"uploads/video_a.mp4", "video_a.mp4"⟩,
        addJobResult := some true, created := true, creates := 1,
        closes := 2, removed := false, fileSize := 5 }) ∧ (2 : Nat) ≠ 1 := by
  exact ⟨by decide, by decide⟩

/-- C5 amended: the handle is created at most once per session (on the
first chunk); on every exit path where it was created it is closed at
least once — exactly once on the transport-error and write-error paths,
and exactly twice on the end-of-stream paths (explicit close then the
deferred close, the second being a no-op error); with no creation there
is no close. -/
theorem handle_close_discipline (a : Bool) (evs : List StreamEvent) :
    ∀ st r, st.closes = 0 →
      st.creates = (if st.file.isSome then 1 else 0) →
      runUpload a evs st = some (.done r) →
      r.creates ≤ 1 ∧
      (r.created = false → r.closes = 0 ∧ r.creates = 0) ∧
      (r.created = true → r.creates = 1 ∧
        r.closes = (if r.status = .ok ∨ r.status = .resourceExhausted
          then 2 else 1)) := by
  induction evs with
  | nil => intro st r _ _ h; simp [runUpload] at h
  | cons e rest ih =>
    intro st r hcl hcr h
    cases e with
    | eof =>
      cases hf : st.file with
      | none => simp [runUpload, hf] at h
      | some name =>
        simp [runUpload, hf] at h
        rw [hf] at hcr
        simp at hcr
        split at h <;>
          (simp at h; subst h; simp [hcl, hcr])
    | recvError =>
      simp [runUpload] at h
      subst h
      cases hf : st.file with
      | none => rw [hf] at hcr; simp at hcr; simp [hf, hcl, hcr]
      | some name => rw [hf] at hcr; simp at hcr; simp [hf, hcl, hcr]
    | chunk f sz c w =>
      cases hf : st.file with
      | none =>
        rw [hf] at hcr
        simp at hcr
        simp [runUpload, hf] at h
        by_cases hc : c = true
        · rw [if_pos hc] at h
          by_cases hw : w = true
          · rw [if_pos hw] at h
            exact ih _ r (by simp [hcl]) (by simp [hcr]) h
          · rw [if_neg hw] at h
            simp at h
            subst h
            simp [hcl, hcr]
        · rw [if_neg hc] at h
          simp at h
          subst h
          simp [hcl, hcr]
      | some name =>
        rw [hf] at hcr
        simp at hcr
        simp [runUpload, hf] at h
        by_cases hw : w = true
        · rw [if_pos hw] at h
          exact ih _ r (by simp [hcl]) (by simp [hf, hcr]) h
        · rw [if_neg hw] at h
          simp at h
          subst h
          simp [hcl, hcr]

/-- Witness for `handle_close_discipline` on the happy-path trace (one
chunk, admission succeeds): created once, status `ok`, closed twice. -/
theorem handle_close_discipline_witness :
    (SessionResult.mk .ok "video_a.mp4"
      (some ⟨"uploads/video_a.mp4", "video_a.mp4"⟩) (some true) true 1 2
      false 5).creates ≤ 1 ∧
    ((SessionResult.mk .ok "video_a.mp4"
      (some ⟨"uploads/video_a.mp4", "video_a.mp4"⟩) (some true) true 1 2
      false 5).created = false →
      (SessionResult.mk .ok "video_a.mp4"
        (some ⟨"uploads/video_a.mp4", "video_a.mp4"⟩) (some true) true 1 2
        false 5).closes = 0 ∧
      (SessionResult.mk .ok "video_a.mp4"
        (some ⟨"uploads/video_a.mp4", "video_a.mp4"⟩) (some true) true 1 2
        false 5).creates = 0) ∧
    ((SessionResult.mk .ok "video_a.mp4"
      (some ⟨"uploads/video_a.mp4", "video_a.mp4"⟩) (some true) true 1 2
      false 5).created = true →
      (SessionResult.mk .ok "video_a.mp4"
        (some ⟨"uploads/video_a.mp4", "video_a.mp4"⟩) (some true) true 1 2
        false 5).creates = 1 ∧
      (SessionResult.mk .ok "video_a.mp4"
        (some ⟨"uploads/video_a.mp4", "video_a.mp4"⟩) (some true) true 1 2
        false 5).closes =
        (if (SessionResult.mk .ok "video_a.mp4"
          (some ⟨"uploads/video_a.mp4", "video_a.mp4"⟩) (some true) true 1 2
          false 5).status = .ok ∨
          (SessionResult.mk .ok "video_a.mp4"
            (some ⟨"uploads/video_a.mp4", "video_a.mp4"⟩) (some true) true 1
            2 false 5).status = .resourceExhausted then 2 else 1)) :=
  handle_close_discipline true [.chunk "a.mp4" 5 true true, .eof]
    SessionState.init _ rfl (by decide) (by decide)

/-- C4: on both paths, an admission rejection (`AddJob` returned false)
and only a rejection produces the resource-exhaustion answer (gRPC
`ResourceExhausted` / HTTP 503); it deletes the already-written file and
admits no job; and that answer is distinct from the statuses used for
file-system errors (`Internal`/500), malformed input (400/405) and
transport errors (`Unknown`). -/
theorem rejected_upload_distinct_status :
    (∀ (a : Bool) (evs : List StreamEvent) (r : SessionResult),
      runUpload a evs SessionState.init = some (.done r) →
      ((r.addJobResult = some false ↔ r.status = .resourceExhausted) ∧
       (r.addJobResult = some false →
         r.removed = true ∧ r.jobAdded = none))) ∧
    (∀ i : WebInput,
      (((handleWebUpload i).addJobResult = some false ↔
        (handleWebUpload i).code = 503) ∧
       ((handleWebUpload i).addJobResult = some false →
         (handleWebUpload i).removed = true ∧
         (handleWebUpload i).jobAdded = none))) ∧
    (GrpcStatus.resourceExhausted ≠ .internal ∧
     GrpcStatus.resourceExhausted ≠ .unknown ∧
     (503 : Nat) ≠ 500 ∧ (503 : Nat) ≠ 400 ∧ (503 : Nat) ≠ 405 ∧
     (503 : Nat) ≠ 200) := by
  refine ⟨?_, ?_, by decide, by decide, by decide, by decide, by decide,
    by decide⟩
  · intro a evs
    suffices hgen : ∀ (evs : List StreamEvent) (st : SessionState)
        (r : SessionResult), runUpload a evs st = some (.done r) →
        ((r.addJobResult = some false ↔ r.status = .resourceExhausted) ∧
         (r.addJobResult = some false →
           r.removed = true ∧ r.jobAdded = none)) by
      intro r h
      exact hgen evs SessionState.init r h
    intro evs
    induction evs with
    | nil => intro st r h; simp [runUpload] at h
    | cons e rest ih =>
      intro st r h
      cases e with
      | eof =>
        cases hf : st.file with
        | none => simp [runUpload, hf] at h
        | some name =>
          simp [runUpload, hf] at h
          split at h <;> (simp at h; subst h; simp)
      | recvError =>
        simp [runUpload] at h
        subst h
        simp
      | chunk f sz c w =>
        cases hf : st.file with
        | none =>
          simp [runUpload, hf] at h
          by_cases hc : c = true
          · rw [if_pos hc] at h
            by_cases hw : w = true
            · rw [if_pos hw] at h
              exact ih _ r h
            · rw [if_neg hw] at h
              simp at h; subst h; simp
          · rw [if_neg hc] at h
            simp at h; subst h; simp
        | some name =>
          simp [runUpload, hf] at h
          by_cases hw : w = true
          · rw [if_pos hw] at h
            exact ih _ r h
          · rw [if_neg hw] at h
            simp at h; subst h; simp
  · intro i
    simp only [handleWebUpload]
    split
    · simp
    · split
      · simp
      · split
        · simp
        · split
          · simp
          · split
            · simp
            · simp

/-- Witness for `rejected_upload_distinct_status`: a concrete rejected
streaming session and a concrete rejected web upload, both cleaned up
with the resource-exhaustion answer. -/
theorem rejected_upload_distinct_status_witness :
    ((SessionResult.mk .resourceExhausted "video_a.mp4" none (some false)
        true 1 2 true 5).removed = true ∧
      (SessionResult.mk .resourceExhausted "video_a.mp4" none (some false)
        true 1 2 true 5).jobAdded = none) ∧
    ((handleWebUpload ⟨.post, true, "a.mp4", true, true, false⟩).removed =
        true ∧
      (handleWebUpload ⟨.post, true, "a.mp4", true, true, false⟩).jobAdded =
        none) := by
  have h1 := (rejected_upload_distinct_status.1 false
    [.chunk "a.mp4" 5 true true, .eof]
    (SessionResult.mk .resourceExhausted "video_a.mp4" none (some false)
      true 1 2 true 5) (by decide)).2 (by decide)
  have h2 := (rejected_upload_distinct_status.2.1
    ⟨.post, true, "a.mp4", true, true, false⟩).2 (by decide)
  exact ⟨h1, h2⟩

/-- C6 counterexample: `os.Create` on a name that already exists (a
second session deriving the same name) reports no error and silently
truncates the existing 100-byte file to zero bytes — not the exclusive
creation the claim states (the spec-modelled exclusive open would have
failed). -/
theorem osCreate_truncates_existing :
    osCreate [("uploads/video_a.mp4", 100)] "uploads/video_a.mp4" =
      [("uploads/video_a.mp4", 0)] ∧
    createExclusiveSpec [("uploads/video_a.mp4", 100)] "uploads/video_a.mp4" =
      none := by
  exact ⟨by decide, by decide⟩

/-- C6 amended: creation never fails because the name exists — it
creates the file empty or silently truncates an existing one to empty
(`os.Create` `O_TRUNC` semantics); an environment creation error aborts
the session before the deferred close is registered, surfacing gRPC
`Internal` (resp. HTTP 500) with no handle open and no job admitted. -/
theorem create_truncates_and_error_aborts :
    (∀ (fs : List (String × Nat)) (name : String),
      fsLookup (osCreate fs name) name = some 0) ∧
    (∀ (a : Bool) (f : String) (sz : Nat) (w : Bool)
      (evs : List StreamEvent),
      runUpload a (.chunk f sz false w :: evs) SessionState.init =
        some (.done {
          status := .internal, videoID := grpcVideoID f, jobAdded := none,
          addJobResult := none, created := false, creates := 0, closes := 0,
          removed := false, fileSize := 0 })) ∧
    (∀ i : WebInput, i.method = .post → i.formFileOk = true →
      i.createOk = false →
      handleWebUpload i = {
        code := 500, removed := false, jobAdded := none,
        addJobResult := none, created := false }) := by
  refine ⟨?_, ?_, ?_⟩
  · intro fs name
    induction fs with
    | nil => simp [osCreate, fsLookup, List.find?]
    | cons p fs ih =>
      by_cases hp : p.1 = name
      · simp [osCreate, fsLookup, List.any_cons, hp, List.find?]
      · by_cases hany : fs.any (fun q => q.1 = name) = true
        · simp [osCreate, List.any_cons, hp, hany, fsLookup,
            List.find?] at ih ⊢
          exact ih
        · simp [osCreate, List.any_cons, hp, hany, fsLookup,
            List.find?] at ih ⊢
          exact ih
  · intro a f sz w evs
    simp [runUpload, SessionState.init]
  · intro i h1 h2 h3
    simp [handleWebUpload, h1, h2, h3]

/-- Witness for `create_truncates_and_error_aborts`: the web branch at a
concrete POST request whose create fails answers 500 with nothing
created. -/
theorem create_truncates_and_error_aborts_witness :
    handleWebUpload ⟨.post, true, "a.mp4", false, true, true⟩ = {
      code := 500, removed := false, jobAdded := none, addJobResult := none,
      created := false } :=
  create_truncates_and_error_aborts.2.2
    ⟨.post, true, "a.mp4", false, true, true⟩ rfl rfl rfl

end MediaUpload

